import Mathlib

/-!
Shallow embedding of the `BitVec` bit-vector buffer from `src/lib.rs`
(crate `bitvecs`), together with theorems settling the spec claims.

The Rust struct owns a raw byte region of `cap` bytes; it is modelled here
as `data : List Nat` (each entry a byte `< 256`, with `cap = data.length`),
`len` the length in bits, and `(byteIdx, bitIdx)` the sequential-read
cursor.  Fallible operations (`Option` in Rust, or a panic) return
`Option`; mutating operations return the new state.  Raw-pointer reads are
modelled with `List.getD _ _ 0` and writes with `List.set` (a no-op when
out of bounds, which in the Rust code would be out-of-bounds UB and is
unreachable from states satisfying `len ≤ 8 * cap`).  The one place where
the Rust code can expose uninitialized memory — `grow`, which obtains the
enlarged region via `alloc`/`realloc` without zeroing — is modelled by an
explicit `junk` oracle supplying the contents of the fresh bytes.
-/

namespace Bitvecs

/-- State of the Rust `BitVec` struct (lib.rs 10-16): `data` models the
`cap = data.length` owned bytes behind `ptr`, `len` is the length in bits,
and `byteIdx`/`bitIdx` are the sequential-reading indices. -/
structure BitVec where
  data : List Nat
  len : Nat
  byteIdx : Nat
  bitIdx : Nat
deriving DecidableEq

/-- `BitVec::new` (lib.rs 28-36): empty, no storage. -/
def BitVec.new : BitVec := ⟨[], 0, 0, 0⟩

/-- `BitVec::with_capacity` (lib.rs 47-59): allocates `bits.div_ceil(8)`
zeroed bytes.  Note the Rust code sets `len: bits` (line 55), not `len: 0`. -/
def BitVec.with_capacity (bits : Nat) : BitVec :=
  ⟨List.replicate ((bits + 7) / 8) 0, bits, 0, 0⟩

/-- `BitVec::from` (lib.rs 71-93): copies the byte slice; `len` is the byte
count times 8.  Entries are reduced mod 256 since the Rust slice holds `u8`. -/
def BitVec.fromBytes (bytes : List Nat) : BitVec :=
  ⟨bytes.map (fun b => b % 256), 8 * bytes.length, 0, 0⟩

/-- `BitVec::get_bit` (lib.rs 140-152): panics (modelled as `none`) when
`index >= len`; otherwise tests `byte & (1 << (index % 8))`, i.e. bit
`index % 8` counted from the least-significant end of byte `index / 8`. -/
def BitVec.get_bit (bv : BitVec) (index : Nat) : Option Bool :=
  if bv.len ≤ index then none
  else some (Nat.testBit (bv.data.getD (index / 8) 0) (index % 8))

/-- `BitVec::get_read_position` (lib.rs 165-167): `byte_idx * 8 + bit_idx`. -/
def BitVec.get_read_position (bv : BitVec) : Nat :=
  bv.byteIdx * 8 + bv.bitIdx

/-- `BitVec::grow` (lib.rs 106-137): new capacity is
`max(min_additional_bytes, 1)` from zero, else
`max(cap * 2, cap + min_additional_bytes)`.  The enlarged region comes from
`alloc`/`realloc`, which preserves the old `cap` bytes but leaves every
newly added byte uninitialized; the model takes their contents from the
`junk` oracle. -/
def BitVec.grow (junk : Nat → Nat) (bv : BitVec) (minAdditionalBytes : Nat) : BitVec :=
  let cap := bv.data.length
  let newCap := if cap = 0 then max minAdditionalBytes 1
    else max (cap * 2) (cap + minAdditionalBytes)
  ⟨bv.data ++ (List.range (newCap - cap)).map (fun i => junk i % 256),
    bv.len, bv.byteIdx, bv.bitIdx⟩

/-- `BitVec::set_bit` (lib.rs 427-446): grows when `index / 8 ≥ cap`
(passing the uninitialized-byte oracle `junk` on to `grow`), then ORs in or
masks out bit `index % 8` (LSB-first) of byte `index / 8`, and sets
`len = max len (index + 1)`.  The gap bits between the old and the new
length are not written. -/
def BitVec.set_bit (junk : Nat → Nat) (bv : BitVec) (index : Nat) (value : Bool) : BitVec :=
  let byteIndex := index / 8
  let bitIndex := index % 8
  let bv1 := if bv.data.length ≤ byteIndex
    then grow junk bv (byteIndex - bv.data.length + 1) else bv
  let oldByte := bv1.data.getD byteIndex 0
  let newByte := if value then oldByte ||| (1 <<< bitIndex)
    else oldByte &&& (255 ^^^ (1 <<< bitIndex))
  ⟨bv1.data.set byteIndex newByte, max bv.len (index + 1), bv.byteIdx, bv.bitIdx⟩

/-- `BitVec::pop_bit` (lib.rs 170-191): reads bit `len - 1` via `get_bit`
(inlined here; it cannot panic since `len - 1 < len`), clears it via
`set_bit` (which cannot grow from a state with `len ≤ 8 * cap`, so the
oracle passed is irrelevant and fixed to zeros), retracts the reading
indices, and decrements `len`. -/
def BitVec.pop_bit (bv : BitVec) : Option Bool × BitVec :=
  if bv.len = 0 then (none, bv)
  else
    let bit := Nat.testBit (bv.data.getD ((bv.len - 1) / 8) 0) ((bv.len - 1) % 8)
    let bv1 := set_bit (fun _ => 0) bv (bv.len - 1) false
    if bv.bitIdx = 0 then
      if 0 < bv.byteIdx then
        (some bit, ⟨bv1.data, bv1.len - 1, bv.byteIdx - 1, 7⟩)
      else
        (some bit, ⟨bv1.data, bv1.len - 1, bv.byteIdx, bv.bitIdx⟩)
    else
      (some bit, ⟨bv1.data, bv1.len - 1, bv.byteIdx, bv.bitIdx - 1⟩)

/-- `BitVec::pop_byte` (lib.rs 195-218): pops `min(8, len)` trailing bits.
For `i` from `bits_to_pop - 1` down to `0`, bit `i` of the result is set
iff `(byte[(len-1-i)/8] >> (7 - (len-1-i)%8)) & 1 == 1` (MSB-first read).
The storage bytes are left untouched; only `len` shrinks.  The reading
indices are not adjusted. -/
def BitVec.pop_byte (bv : BitVec) : Option Nat × BitVec :=
  if bv.len = 0 then (none, bv)
  else
    let bitsToPop := min 8 bv.len
    let result := ((List.range bitsToPop).reverse).foldl
      (fun acc i =>
        let bytePos := (bv.len - 1 - i) / 8
        let bitPos := 7 - ((bv.len - 1 - i) % 8)
        if (bv.data.getD bytePos 0 >>> bitPos) &&& 1 = 1 then acc ||| (1 <<< i) else acc)
      0
    (some result, ⟨bv.data, bv.len - bitsToPop, bv.byteIdx, bv.bitIdx⟩)

/-- `BitVec::pop_full_byte` (lib.rs 221-241): requires `len ≥ 8` and
`bit_idx == 7`; returns the stored byte at `byte_idx`, decrements
`byte_idx` (or zeroes `bit_idx` when `byte_idx == 0`), and subtracts 8
from `len`. -/
def BitVec.pop_full_byte (bv : BitVec) : Option Nat × BitVec :=
  if bv.len < 8 then (none, bv)
  else if bv.bitIdx ≠ 7 then (none, bv)
  else
    let byte := bv.data.getD bv.byteIdx 0
    if 0 < bv.byteIdx then
      (some byte, ⟨bv.data, bv.len - 8, bv.byteIdx - 1, bv.bitIdx⟩)
    else
      (some byte, ⟨bv.data, bv.len - 8, bv.byteIdx, 0⟩)

/-- `BitVec::push_bit` (lib.rs 244-293): writes bit `len % 8` (LSB-first)
of byte `len / 8` and increments `len`.  When `len % 8 == 0` the target
byte is explicitly zeroed first (line 278); the growth path allocates one
extra byte whose (uninitialized) content is immediately overwritten by
that zeroing, so no junk oracle is needed.  The model pads with zeros to
index `len / 8` when the byte is out of range; in Rust any padding beyond
one byte corresponds to an out-of-bounds write, unreachable from states
with `len ≤ 8 * cap`. -/
def BitVec.push_bit (bv : BitVec) (bit : Bool) : BitVec :=
  let byteOffset := bv.len / 8
  let bitOffset := bv.len % 8
  let data1 :=
    if bitOffset = 0 then
      (if bv.data.length ≤ byteOffset
        then bv.data ++ List.replicate (byteOffset + 1 - bv.data.length) 0
        else bv.data).set byteOffset 0
    else bv.data
  let oldByte := data1.getD byteOffset 0
  let newByte := if bit then oldByte ||| (1 <<< bitOffset)
    else oldByte &&& (255 ^^^ (1 <<< bitOffset))
  ⟨data1.set byteOffset newByte, bv.len + 1, bv.byteIdx, bv.bitIdx⟩

/-- `BitVec::push_byte` (lib.rs 296-331): whole byte written at byte
offset `len / 8`; grows by one byte when `cap * 8 == len` (the appended
placeholder models the uninitialized new byte, which in that case is at
index `len / 8` and is immediately overwritten); `len` increases by 8. -/
def BitVec.push_byte (bv : BitVec) (byte : Nat) : BitVec :=
  let data1 := if bv.data.length * 8 = bv.len then bv.data ++ [0] else bv.data
  ⟨data1.set (bv.len / 8) (byte % 256), bv.len + 8, bv.byteIdx, bv.bitIdx⟩

/-- `BitVec::seq_read` (lib.rs 342-359): returns `none` without mutating
when `byte_idx ≥ (len + 7) / 8`; otherwise returns
`(byte[byte_idx] >> (7 - bit_idx)) & 1` (MSB-first) and advances the
reading indices by one bit, wrapping `bit_idx` at 8. -/
def BitVec.seq_read (bv : BitVec) : Option Nat × BitVec :=
  if (bv.len + 7) / 8 ≤ bv.byteIdx then (none, bv)
  else
    let bit := (bv.data.getD bv.byteIdx 0 >>> (7 - bv.bitIdx)) &&& 1
    if bv.bitIdx + 1 = 8 then
      (some bit, ⟨bv.data, bv.len, bv.byteIdx + 1, 0⟩)
    else
      (some bit, ⟨bv.data, bv.len, bv.byteIdx, bv.bitIdx + 1⟩)

/-- `BitVec::read_byte` (lib.rs 362-372): eight `seq_read`s composed
MSB-first; on a failed read the whole call returns `none` and the cursor
stays where the failed (non-mutating) read left it. -/
def BitVec.read_byte (bv : BitVec) : Option Nat × BitVec :=
  (List.range 8).foldl
    (fun st _ =>
      match st with
      | (none, s) => (none, s)
      | (some acc, s) =>
        match seq_read s with
        | (some bit, s1) => (some ((acc <<< 1) ||| bit), s1)
        | (none, s1) => (none, s1))
    (some 0, bv)

/-- `BitVec::reset_seq_read` (lib.rs 375-378). -/
def BitVec.reset_seq_read (bv : BitVec) : BitVec :=
  ⟨bv.data, bv.len, 0, 0⟩

/-- `BitVec::set_read_position` (lib.rs 481-488): fails (returning `false`,
state unchanged) when `bit_position ≥ len`. -/
def BitVec.set_read_position (bv : BitVec) (bitPosition : Nat) : Bool × BitVec :=
  if bv.len ≤ bitPosition then (false, bv)
  else (true, ⟨bv.data, bv.len, bitPosition / 8, bitPosition % 8⟩)

/-- `BitVec::fill` (lib.rs 449-478): fills the `len / 8` complete bytes
with `0xFF`/`0x00`, then ORs/ANDs the partial byte with an LSB-aligned
mask `(1 << (len % 8)) - 1` (`!mask` modelled as `255 ^^^ mask`), and
resets the reading indices.  The Rust slice write `slice[..complete_bytes]`
would panic if `len / 8 > cap`; the model writes only existing indices. -/
def BitVec.fill (bv : BitVec) (value : Bool) : BitVec :=
  let fillByte := if value then 255 else 0
  let completeBytes := bv.len / 8
  let data1 := (List.range bv.data.length).map
    (fun i => if i < completeBytes then fillByte else bv.data.getD i 0)
  let remainingBits := bv.len % 8
  let data2 :=
    if 0 < remainingBits then
      let mask := (1 <<< remainingBits) - 1
      let oldByte := data1.getD completeBytes 0
      data1.set completeBytes (if value then oldByte ||| mask else oldByte &&& (255 ^^^ mask))
    else data1
  ⟨data2, bv.len, 0, 0⟩

/-- `BitVec::is_zero` (lib.rs 497-506): scans every one of the `cap`
stored bytes, with no masking at the `len` boundary. -/
def BitVec.is_zero (bv : BitVec) : Bool :=
  bv.data.all (fun b => b == 0)

/-- `BitVec::diff` (lib.rs 509-519): in place over the first
`min(len.div_ceil(8), other.len.div_ceil(8))` bytes, `self &= !other`
(`!` on a byte modelled as `255 ^^^ ·`); `len` and the reading indices are
unchanged. -/
def BitVec.diff (bv other : BitVec) : BitVec :=
  let minCap := min ((bv.len + 7) / 8) ((other.len + 7) / 8)
  ⟨(List.range bv.data.length).map
      (fun i => if i < minCap
        then bv.data.getD i 0 &&& (255 ^^^ (other.data.getD i 0 % 256))
        else bv.data.getD i 0),
    bv.len, bv.byteIdx, bv.bitIdx⟩

/-- `BitVec::intersec` (lib.rs 522-542): in place, `self &= other` over the
first `min(len.div_ceil(8), other.len.div_ceil(8))` bytes, then zeroes the
bytes from `other.cap` up to `self.cap`; `len` and the reading indices are
unchanged. -/
def BitVec.intersec (bv other : BitVec) : BitVec :=
  let minCap := min ((bv.len + 7) / 8) ((other.len + 7) / 8)
  let data1 := (List.range bv.data.length).map
    (fun i => if i < minCap
      then bv.data.getD i 0 &&& other.data.getD i 0
      else bv.data.getD i 0)
  let data2 :=
    if other.data.length < bv.data.length then
      (List.range data1.length).map
        (fun i => if other.data.length ≤ i then 0 else data1.getD i 0)
    else data1
  ⟨data2, bv.len, bv.byteIdx, bv.bitIdx⟩

/-- `BitVec::union` (lib.rs 545-555): in place, `self |= other` over the
first `min(len.div_ceil(8), other.len.div_ceil(8))` bytes; `len` and the
reading indices are unchanged, and nothing beyond that prefix is touched. -/
def BitVec.union (bv other : BitVec) : BitVec :=
  let minCap := min ((bv.len + 7) / 8) ((other.len + 7) / 8)
  ⟨(List.range bv.data.length).map
      (fun i => if i < minCap
        then bv.data.getD i 0 ||| other.data.getD i 0
        else bv.data.getD i 0),
    bv.len, bv.byteIdx, bv.bitIdx⟩

/-- The cursor invariant stated by the spec (§3): the sequential reading
position never exceeds the bit length. -/
def BitVec.cursorInv (bv : BitVec) : Prop :=
  bv.byteIdx * 8 + bv.bitIdx ≤ bv.len

instance (bv : BitVec) : Decidable (BitVec.cursorInv bv) :=
  inferInstanceAs (Decidable (bv.byteIdx * 8 + bv.bitIdx ≤ bv.len))

/-- Reading an index built by `List.range _ |>.map f` returns `f i`. -/
theorem getD_rangeMap (f : Nat → Nat) {n i : Nat} (h : i < n) :
    ((List.range n).map f).getD i 0 = f i := by
  rw [List.getD_eq_getElem?_getD, List.getElem?_map, List.getElem?_range h]
  rfl

/-- Reading back an in-bounds `List.set` at the written index. -/
theorem getD_set_self (l : List Nat) (i a d : Nat) (h : i < l.length) :
    (l.set i a).getD i d = a := by
  rw [List.getD_eq_getElem?_getD, List.getElem?_set_eq_of_lt a h]
  rfl

/-- ORing in `1 <<< r` sets bit `r`. -/
theorem testBit_set_low (x r : Nat) : Nat.testBit (x ||| 1 <<< r) r = true := by
  rw [Nat.testBit_or, Nat.one_shiftLeft, Nat.testBit_two_pow_self]
  simp

/-- ANDing with the byte complement of `1 <<< r` clears bit `r` (for `r < 8`). -/
theorem testBit_clear_low (x r : Nat) (hr : r < 8) :
    Nat.testBit (x &&& (255 ^^^ 1 <<< r)) r = false := by
  rw [Nat.testBit_and, Nat.testBit_xor, Nat.one_shiftLeft, Nat.testBit_two_pow_self]
  have h255 : Nat.testBit 255 r = true := by
    have h : (255 : Nat) = 2 ^ 8 - 1 := by norm_num
    rw [h, Nat.testBit_two_pow_sub_one]
    simpa using hr
  rw [h255]
  simp

/-- Both components of `pop_bit` on a nonempty buffer: the popped value is
bit `(len-1) % 8` (LSB-first) of byte `(len-1) / 8`, and the length drops
by one. -/
theorem BitVec.pop_bit_eq (bv : BitVec) (h : bv.len ≠ 0) :
    (bv.pop_bit).1 =
      some (Nat.testBit (bv.data.getD ((bv.len - 1) / 8) 0) ((bv.len - 1) % 8)) ∧
    (bv.pop_bit).2.len = bv.len - 1 := by
  unfold BitVec.pop_bit
  rw [if_neg h]
  simp only [BitVec.set_bit]
  split_ifs <;> exact ⟨rfl, by simp; omega⟩

/-- The bit written by `push_bit` is read back by the LSB-first `testBit`
at byte `len / 8`, position `len % 8`. -/
theorem BitVec.push_bit_testBit (bv : BitVec) (v : Bool)
    (h : bv.len ≤ 8 * bv.data.length) :
    Nat.testBit ((bv.push_bit v).data.getD (bv.len / 8) 0) (bv.len % 8) = v := by
  have hr8 : bv.len % 8 < 8 := Nat.mod_lt _ (by decide)
  unfold BitVec.push_bit
  simp only
  set q := bv.len / 8 with hq
  set r := bv.len % 8 with hr
  set data1 :=
    (if r = 0 then
      (if bv.data.length ≤ q
        then bv.data ++ List.replicate (q + 1 - bv.data.length) 0
        else bv.data).set q 0
    else bv.data) with hdata1
  have hqlt : q < data1.length := by
    rw [hdata1]
    split_ifs with h0 h1
    · simp [List.length_set, List.length_append, List.length_replicate]
      omega
    · simp [List.length_set]
      omega
    · -- r ≠ 0 : len = 8*q + r with r ≥ 1 and len ≤ 8*L
      have := Nat.div_add_mod bv.len 8
      omega
  rw [getD_set_self _ _ _ _ hqlt]
  cases v
  · exact testBit_clear_low (data1.getD q 0) r hr8
  · exact testBit_set_low (data1.getD q 0) r

/-- C1: the claim says the canonical MSB-first order (intra-byte position
`7 - (i % 8)`) is applied consistently, with `get_bit(i)` agreeing with a
sequential read positioned at `i`.  The code violates this: on the buffer
built from the single byte `0x01`, `get_bit 0` tests the least-significant
bit (LSB-first) and returns `true`, while the sequential read at position 0
reads MSB-first and returns `0`.  The two operations disagree, so the bit
order is not applied consistently and `get_bit` does not use position
`7 - (i % 8)`. -/
theorem c1_bit_order_mismatch :
    (BitVec.fromBytes [1]).get_bit 0 = some true ∧
      ((BitVec.fromBytes [1]).seq_read).1 = some 0 := by
  decide

/-- C2: the claim (and the Rust doc comment on `with_capacity`) says the
constructed buffer is empty (`length_bits = 0`).  The code sets
`len: bits` (lib.rs line 55): `with_capacity 24` yields `len = 24`, with
3 zeroed bytes of storage. -/
theorem c2_with_capacity_not_empty :
    (BitVec.with_capacity 24).len = 24 ∧ (BitVec.with_capacity 24).len ≠ 0 ∧
      (BitVec.with_capacity 24).data = [0, 0, 0] := by
  decide

/-- C3 counterexample: on the buffer with stored bytes `[0x6A, 0xA0]` and
`length_bits = 11`, the first `pop_byte` does return 85 leaving
`length_bits = 3` as claimed, but the second `pop_byte` returns 3
(the three remaining bits `011` right-aligned), not 96. -/
theorem c3_counterexample :
    ((⟨[106, 160], 11, 0, 0⟩ : BitVec).pop_byte).1 = some 85 ∧
    ((⟨[106, 160], 11, 0, 0⟩ : BitVec).pop_byte).2.len = 3 ∧
    (((⟨[106, 160], 11, 0, 0⟩ : BitVec).pop_byte).2.pop_byte).1 ≠ some 96 := by
  decide

/-- C3 (amended): on the buffer with stored bytes `[0x6A, 0xA0]` and
`length_bits = 11`, `pop_byte` returns 85 (`0x55`) and leaves
`length_bits = 3`; the second `pop_byte` returns 3 (`0b011`): the three
remaining bits read MSB-first land in the low bits of the result byte. -/
theorem c3_pop_byte_scenario :
    ((⟨[106, 160], 11, 0, 0⟩ : BitVec).pop_byte).1 = some 85 ∧
    ((⟨[106, 160], 11, 0, 0⟩ : BitVec).pop_byte).2.len = 3 ∧
    (((⟨[106, 160], 11, 0, 0⟩ : BitVec).pop_byte).2.pop_byte).1 = some 3 := by
  decide

/-- C4: the claim says out-of-range `set_bit` zero-fills the gap, because
newly grown bytes are zero-initialized.  The code neither zero-fills the
gap nor zeroes grown memory (`grow` uses plain `alloc`/`realloc`).
Concretely: start from bytes `[0xFF]`, `pop_byte` (length drops to 0, the
stale byte `0xFF` remains), then `set_bit 7 false` (growth is not even
needed, so the junk oracle is irrelevant): the length advances to 8 and
the gap bit 0 reads back `true`, not zero. -/
theorem c4_gap_not_zeroed :
    ((BitVec.fromBytes [255]).pop_byte).2.len = 0 ∧
    (BitVec.set_bit (fun _ => 0) ((BitVec.fromBytes [255]).pop_byte).2 7 false).len = 8 ∧
    (BitVec.set_bit (fun _ => 0) ((BitVec.fromBytes [255]).pop_byte).2 7 false).get_bit 0 =
      some true := by
  decide

/-- C9: `push_bit v` immediately followed by `pop_bit` pops `v` and
restores `length_bits`, for every state whose length fits in its storage
(`len ≤ 8 * cap`, true of every state the Rust code can reach without
out-of-bounds access). -/
theorem c9_push_pop_roundtrip (bv : BitVec) (v : Bool)
    (h : bv.len ≤ 8 * bv.data.length) :
    ((bv.push_bit v).pop_bit).1 = some v ∧
      ((bv.push_bit v).pop_bit).2.len = bv.len := by
  have hlen : (bv.push_bit v).len = bv.len + 1 := rfl
  have hne : (bv.push_bit v).len ≠ 0 := by omega
  obtain ⟨h1, h2⟩ := BitVec.pop_bit_eq (bv.push_bit v) hne
  refine ⟨?_, by omega⟩
  rw [h1, hlen]
  simp only [Nat.add_sub_cancel]
  rw [BitVec.push_bit_testBit bv v h]

/-- C9 witness: the round trip at the concrete buffer from bytes `[5]`
with `v = true`. -/
theorem c9_push_pop_roundtrip_witness :
    (((BitVec.fromBytes [5]).push_bit true).pop_bit).1 = some true ∧
      (((BitVec.fromBytes [5]).push_bit true).pop_bit).2.len = (BitVec.fromBytes [5]).len :=
  c9_push_pop_roundtrip (BitVec.fromBytes [5]) true (by decide)

/-- C8 counterexample: after `pop_byte` on the buffer from bytes `[0xFF]`,
`length_bits = 0`, so every bit in `[0, length_bits)` is (vacuously) zero
and the claim demands `is_zero = true`; but the stale physical byte `0xFF`
is still scanned — there is no masking — and `is_zero` returns `false`. -/
theorem c8_counterexample :
    ((BitVec.fromBytes [255]).pop_byte).2.len = 0 ∧
      ((BitVec.fromBytes [255]).pop_byte).2.is_zero = false := by
  decide

/-- C8 (amended): `is_zero` returns `true` iff every one of the
`capacity_bytes` stored bytes is zero — the scan covers the whole
capacity with no masking at the `length_bits` boundary, so stale physical
bits at indices at or beyond `length_bits` do affect the result. -/
theorem c8_is_zero_spec (bv : BitVec) :
    bv.is_zero = true ↔ ∀ b ∈ bv.data, b = 0 := by
  simp [BitVec.is_zero, List.all_eq_true]

/-- C8 witness: `is_zero` on the all-zero two-byte buffer. -/
theorem c8_is_zero_spec_witness :
    (BitVec.fromBytes [0, 0]).is_zero = true :=
  (c8_is_zero_spec (BitVec.fromBytes [0, 0])).mpr (by decide)

/-- C5 counterexample: `union` on the empty buffer and the buffer from
bytes `[0x01]` leaves the length at 0, not at
`max length_bits = 8`; the second operand's content is entirely dropped. -/
theorem c5_counterexample :
    (BitVec.new.union (BitVec.fromBytes [1])).len ≠
      max BitVec.new.len (BitVec.fromBytes [1]).len := by
  decide

/-- C5 (amended): `union(other)` mutates `self` in place rather than
returning a fresh max-length buffer: each of the first
`min(len_a.div_ceil 8, len_b.div_ceil 8)` stored bytes of `self` is ORed
with the corresponding byte of `other`, every byte past that prefix is
untouched, and `self`'s `length_bits`, capacity and reading indices are
all unchanged (so the result length is `self`'s, not the maximum). -/
theorem c5_union_spec (a b : BitVec) :
    (a.union b).len = a.len ∧
    (a.union b).byteIdx = a.byteIdx ∧
    (a.union b).bitIdx = a.bitIdx ∧
    (a.union b).data.length = a.data.length ∧
    ∀ i, i < a.data.length →
      (a.union b).data.getD i 0 =
        (if i < min ((a.len + 7) / 8) ((b.len + 7) / 8)
          then a.data.getD i 0 ||| b.data.getD i 0
          else a.data.getD i 0) := by
  refine ⟨rfl, rfl, rfl, by simp [BitVec.union], ?_⟩
  intro i hi
  simp only [BitVec.union]
  rw [getD_rangeMap _ hi]

/-- C5 witness: the byte-level description of `union` evaluated at byte 0
of the one-byte buffers from `[3]` and `[5]`. -/
theorem c5_union_spec_witness :
    ((BitVec.fromBytes [3]).union (BitVec.fromBytes [5])).data.getD 0 0 =
      (if 0 < min (((BitVec.fromBytes [3]).len + 7) / 8) (((BitVec.fromBytes [5]).len + 7) / 8)
        then (BitVec.fromBytes [3]).data.getD 0 0 ||| (BitVec.fromBytes [5]).data.getD 0 0
        else (BitVec.fromBytes [3]).data.getD 0 0) :=
  (c5_union_spec (BitVec.fromBytes [3]) (BitVec.fromBytes [5])).2.2.2.2 0 (by decide)

/-- C10: `pop_full_byte` is coupled to the sequential-read cursor: it
returns `none` whenever `length_bits < 8` or the cursor's `bit_idx` is not
7 (leaving the state untouched); on success it returns the stored byte at
the cursor's `byte_idx`, subtracts 8 from `length_bits`, and steps
`byte_idx` back by one (or zeroes `bit_idx` when `byte_idx = 0`). -/
theorem c10_pop_full_byte_spec (bv : BitVec) :
    (bv.len < 8 ∨ bv.bitIdx ≠ 7 → bv.pop_full_byte = (none, bv)) ∧
    (8 ≤ bv.len → bv.bitIdx = 7 →
      (bv.pop_full_byte).1 = some (bv.data.getD bv.byteIdx 0) ∧
      (bv.pop_full_byte).2.len = bv.len - 8 ∧
      (bv.pop_full_byte).2.data = bv.data ∧
      (0 < bv.byteIdx →
        (bv.pop_full_byte).2.byteIdx = bv.byteIdx - 1 ∧ (bv.pop_full_byte).2.bitIdx = 7) ∧
      (bv.byteIdx = 0 →
        (bv.pop_full_byte).2.byteIdx = 0 ∧ (bv.pop_full_byte).2.bitIdx = 0)) := by
  unfold BitVec.pop_full_byte
  constructor
  · intro hfail
    split_ifs with hl h7 hb
    · rfl
    · rfl
    · exact absurd hfail (by push_neg; exact ⟨by omega, by omega⟩)
    · exact absurd hfail (by push_neg; exact ⟨by omega, by omega⟩)
  · intro hlen h7
    rw [if_neg (by omega), if_neg (by simp [h7])]
    split_ifs with hb
    · exact ⟨rfl, rfl, rfl, fun _ => ⟨rfl, h7⟩, fun h0 => by omega⟩
    · exact ⟨rfl, rfl, rfl, fun hc => by omega, fun _ => ⟨by simp; omega, rfl⟩⟩

/-- C10 witness: popping a full byte from the two-byte buffer `[7, 9]`
with the cursor at `(1, 7)` returns the byte 9 at `byte_idx = 1` and
leaves `length_bits = 8` with the cursor at `(0, 7)`. -/
theorem c10_pop_full_byte_spec_witness :
    ((⟨[7, 9], 16, 1, 7⟩ : BitVec).pop_full_byte).1 = some 9 ∧
      ((⟨[7, 9], 16, 1, 7⟩ : BitVec).pop_full_byte).2.len = 8 := by
  have h := (c10_pop_full_byte_spec ⟨[7, 9], 16, 1, 7⟩).2 (by decide) (by decide)
  exact ⟨h.1, h.2.1⟩

/-- C6 counterexample: a buffer of 5 valid bits whose cursor sits at
position 5 (= `length_bits`, reachable by five sequential reads).  The
claim demands `seq_read` return `none` without mutating; the code only
checks `byte_idx ≥ (len + 7) / 8`, so it returns the physical bit
(`some 0`) and advances the cursor to position 6. -/
theorem c6_counterexample :
    (⟨[0], 5, 0, 5⟩ : BitVec).get_read_position ≥ (⟨[0], 5, 0, 5⟩ : BitVec).len ∧
    ((⟨[0], 5, 0, 5⟩ : BitVec).seq_read).1 = some 0 ∧
    ((⟨[0], 5, 0, 5⟩ : BitVec).seq_read).2 ≠ (⟨[0], 5, 0, 5⟩ : BitVec) ∧
    ((((((BitVec.with_capacity 5).seq_read.2).seq_read.2).seq_read.2).seq_read.2).seq_read.2
      = (⟨[0], 5, 0, 5⟩ : BitVec)) := by
  decide

/-- C6 (amended): `seq_read` returns `none` without mutating any state
exactly when the cursor position has reached the end of the last partial
storage byte, i.e. `8 * ceil(length_bits / 8)` — not when it reaches
`length_bits`.  Below that bound it returns the physical bit at the
cursor (even at positions at or beyond `length_bits` inside the final
partial byte) and advances the cursor by exactly one position. -/
theorem c6_seq_read_spec (bv : BitVec) (h : bv.bitIdx < 8) :
    ((bv.seq_read).1 = none ↔ 8 * ((bv.len + 7) / 8) ≤ bv.get_read_position) ∧
    ((bv.seq_read).1 = none → (bv.seq_read).2 = bv) ∧
    (bv.get_read_position < 8 * ((bv.len + 7) / 8) →
      (bv.seq_read).1 = some ((bv.data.getD bv.byteIdx 0 >>> (7 - bv.bitIdx)) &&& 1) ∧
      (bv.seq_read).2.get_read_position = bv.get_read_position + 1 ∧
      (bv.seq_read).2.data = bv.data ∧ (bv.seq_read).2.len = bv.len) := by
  unfold BitVec.seq_read BitVec.get_read_position
  split_ifs with hg h8
  · refine ⟨⟨fun _ => by omega, fun _ => rfl⟩, fun _ => rfl, fun hlt => absurd hlt (by omega)⟩
  · refine ⟨⟨fun hc => by simp at hc, fun hc => by omega⟩, fun hc => by simp at hc, ?_⟩
    exact fun _ => ⟨rfl, by simp; omega, rfl, rfl⟩
  · refine ⟨⟨fun hc => by simp at hc, fun hc => by omega⟩, fun hc => by simp at hc, ?_⟩
    exact fun _ => ⟨rfl, by simp; omega, rfl, rfl⟩

/-- C6 witness: the characterization applied to the buffer from bytes
`[3]` (cursor at position 0, length 8): the first sequential read returns
bit `(3 >> 7) & 1 = 0` and advances the cursor to position 1. -/
theorem c6_seq_read_spec_witness :
    ((BitVec.fromBytes [3]).seq_read).1 =
        some (((BitVec.fromBytes [3]).data.getD (BitVec.fromBytes [3]).byteIdx 0 >>>
          (7 - (BitVec.fromBytes [3]).bitIdx)) &&& 1) ∧
      ((BitVec.fromBytes [3]).seq_read).2.get_read_position =
        (BitVec.fromBytes [3]).get_read_position + 1 ∧
      ((BitVec.fromBytes [3]).seq_read).2.data = (BitVec.fromBytes [3]).data ∧
      ((BitVec.fromBytes [3]).seq_read).2.len = (BitVec.fromBytes [3]).len :=
  (c6_seq_read_spec (BitVec.fromBytes [3]) (by decide)).2.2 (by decide)

/-- C7 counterexample: from the buffer built from bytes `[0xAA, 0xAA]`
(16 bits) with the cursor legitimately placed at position 15, `pop_byte`
drops `length_bits` to 8 without retracting the cursor, leaving the
reachable state with `byte_idx * 8 + bit_idx = 15 > 8 = length_bits`:
the invariant is not preserved by every operation. -/
theorem c7_counterexample :
    ((BitVec.fromBytes [170, 170]).set_read_position 15).2.cursorInv ∧
      ¬ (((BitVec.fromBytes [170, 170]).set_read_position 15).2.pop_byte).2.cursorInv := by
  decide

/-- C7 (amended): the cursor invariant `byte_idx * 8 + bit_idx ≤
length_bits` is established by every constructor (`new`, `with_capacity`,
`from`) and preserved by `push_bit`, `push_byte`, `pop_bit`,
`pop_full_byte`, `set_bit`, `fill`, `reset_seq_read`, `set_read_position`,
`union`, `intersec` and `diff` — but not by every operation: `pop_byte`
shrinks `length_bits` without retracting the cursor, and `seq_read` (hence
`read_byte`) can advance the cursor past `length_bits` into the final
partial byte. -/
theorem c7_cursor_invariant_partial :
    BitVec.new.cursorInv ∧
    (∀ (n : Nat), (BitVec.with_capacity n).cursorInv) ∧
    (∀ (l : List Nat), (BitVec.fromBytes l).cursorInv) ∧
    (∀ (bv : BitVec) (b : Bool), bv.cursorInv → (bv.push_bit b).cursorInv) ∧
    (∀ (bv : BitVec) (byte : Nat), bv.cursorInv → (bv.push_byte byte).cursorInv) ∧
    (∀ (bv : BitVec), bv.cursorInv → (bv.pop_bit).2.cursorInv) ∧
    (∀ (bv : BitVec), bv.cursorInv → (bv.pop_full_byte).2.cursorInv) ∧
    (∀ (junk : Nat → Nat) (bv : BitVec) (i : Nat) (v : Bool), bv.cursorInv → (BitVec.set_bit junk bv i v).cursorInv) ∧
    (∀ (bv : BitVec) (v : Bool), (bv.fill v).cursorInv) ∧
    (∀ (bv : BitVec), bv.reset_seq_read.cursorInv) ∧
    (∀ (bv : BitVec) (p : Nat), bv.cursorInv → (bv.set_read_position p).2.cursorInv) ∧
    (∀ (a b : BitVec), a.cursorInv → (a.union b).cursorInv) ∧
    (∀ (a b : BitVec), a.cursorInv → (a.intersec b).cursorInv) ∧
    (∀ (a b : BitVec), a.cursorInv → (a.diff b).cursorInv) := by
  refine ⟨by decide, ?_, ?_, ?_, ?_, ?_, ?_, ?_, ?_, ?_, ?_, ?_, ?_, ?_⟩
  · intro n
    simp [BitVec.cursorInv, BitVec.with_capacity]
  · intro l
    simp [BitVec.cursorInv, BitVec.fromBytes]
  · intro bv b h
    simp only [BitVec.cursorInv, BitVec.push_bit] at h ⊢
    omega
  · intro bv byte h
    simp only [BitVec.cursorInv, BitVec.push_byte] at h ⊢
    omega
  · intro bv h
    simp only [BitVec.cursorInv, BitVec.pop_bit, BitVec.set_bit] at h ⊢
    split_ifs <;> simp <;> omega
  · intro bv h
    simp only [BitVec.cursorInv, BitVec.pop_full_byte] at h ⊢
    split_ifs <;> simp <;> omega
  · intro junk bv i v h
    simp only [BitVec.cursorInv, BitVec.set_bit] at h ⊢
    omega
  · intro bv v
    simp [BitVec.cursorInv, BitVec.fill]
  · intro bv
    simp [BitVec.cursorInv, BitVec.reset_seq_read]
  · intro bv p h
    simp only [BitVec.cursorInv, BitVec.set_read_position] at h ⊢
    split_ifs with hp
    · exact h
    · simp
      omega
  · intro a b h
    simpa [BitVec.cursorInv, BitVec.union] using h
  · intro a b h
    simpa [BitVec.cursorInv, BitVec.intersec] using h
  · intro a b h
    simpa [BitVec.cursorInv, BitVec.diff] using h

/-- C7 witness: pushing a bit onto the empty buffer preserves the cursor
invariant. -/
theorem c7_cursor_invariant_partial_witness :
    (BitVec.new.push_bit true).cursorInv :=
  c7_cursor_invariant_partial.2.2.2.1 BitVec.new true (by decide)

end Bitvecs
